import Mathlib

/-!
Shallow embedding of the route-refinement pipeline of the
google-maps-route-api repository (Go).  The definitions below are direct
translations of the functions in the Go source (`main` package): the
data model from `entities`, the string helpers `stripHTML`,
`extractStreetNameFromHTML`, `extractStreetNameFromReverseGeocode`, the
three `RouteSimplifier` stages `simplifyRoute`, `removeZigZags`,
`mergeDuplicateDescriptions`, the downhill-annotation loop, the
per-step instruction/waypoint aggregation loop of the `/route` handler,
and the `haversine` distance.  Go `float64` is modelled by `ℝ`, Go `int`
by `ℤ`, Go strings by Lean `String` scanned at rune (character) level.
Network collaborators (elevation lookup, reverse geocoding) are modelled
as oracle functions supplied as parameters; a failed lookup is `none`.
-/

namespace RouteApi

/-- Coordinates entity: latitude/longitude in decimal degrees (`entities.Coordinates`). -/
structure Coordinates where
  Lat : ℝ
  Lng : ℝ

/-- Point entity: one waypoint of the displayed polyline (`entities.Point`). -/
structure Point where
  Lat : ℝ
  Lng : ℝ
  Description : String
  Elevation : ℝ
  IsDownHill : Bool

/-- Instruction entity: one turn-by-turn entry (`entities.Instruction`). -/
structure Instruction where
  Instruction : String
  DistanceMeters : ℤ
  DurationSeconds : ℤ
  Maneuver : String
  StreetName : String
  StartLocation : Coordinates

/-- Route entity (`entities.Route`). -/
structure Route where
  ID : ℤ
  Points : List Point
  Instructions : List Instruction

/-! ## String helpers (Go `strings` operations used by the source) -/

/-- Index of the first occurrence of `needle` as a contiguous sublist of
`hay`, at rune level; `none` when absent.  Models Go `strings.Index`. -/
def subIdx (needle : List Char) : List Char → Option Nat
  | [] => if needle = [] then some 0 else none
  | c :: t =>
      if needle.isPrefixOf (c :: t) then some 0
      else (subIdx needle t).map (· + 1)

/-- Whether `needle` occurs inside `s`.  Models Go `strings.Contains`. -/
def containsStr (needle s : String) : Bool :=
  (subIdx needle.toList s.toList).isSome

/-- Whether `p` is a prefix of `s`.  Models Go `strings.HasPrefix`. -/
def hasPrefixStr (p s : String) : Bool :=
  p.toList.isPrefixOf s.toList

/-- Remove leading and trailing whitespace characters.  Models
Go `strings.TrimSpace` (restricted to the whitespace characters of
`Char.isWhitespace`). -/
def trimChars (l : List Char) : List Char :=
  ((l.dropWhile Char.isWhitespace).reverse.dropWhile Char.isWhitespace).reverse

/-- Scanner state machine of the Go `stripHTML` helper: toggles an
`inTag` flag on the delimiters and discards characters while inside a
tag, tolerating unmatched delimiters. -/
def stripHTMLAux : Bool → List Char → List Char
  | _, [] => []
  | inTag, c :: rest =>
      if c = '<' then stripHTMLAux true rest
      else if c = '>' then stripHTMLAux false rest
      else if inTag then stripHTMLAux inTag rest
      else c :: stripHTMLAux inTag rest

/-- Go `stripHTML`: drop everything between tag delimiters, then trim. -/
def stripHTML (s : String) : String :=
  String.mk (trimChars (stripHTMLAux false s.toList))

/-- First complete bold span in `after`: the Go code's search for the
first `<b>` tag followed by a matching closing tag, yielding the trimmed
content, or `none` when either tag is missing. -/
def boldSpanAfter (after : List Char) : Option String :=
  match subIdx "<b>".toList after with
  | none => none
  | some st =>
      let a2 := after.drop (st + 3)
      match subIdx "</b>".toList a2 with
      | none => none
      | some e => some (String.mk (trimChars (a2.take e)))

/-- One keyword attempt of Go `extractStreetNameFromHTML`: find `kw`
case-insensitively, then the first complete bold span after the match
(tag search is case-sensitive, on the original string). -/
def keywordBold (kw : String) (html : String) : Option String :=
  let h := html.toList
  let lower := h.map Char.toLower
  match subIdx kw.toList lower with
  | none => none
  | some idx => boldSpanAfter (h.drop (idx + kw.toList.length))

/-- Go `extractStreetNameFromHTML`: try `" onto "`, then `" on "`, each
with a following bold span; otherwise strip all tags. -/
def extractStreetNameFromHTML (html : String) : String :=
  match keywordBold " onto " html with
  | some s => s
  | none =>
      match keywordBold " on " html with
      | some s => s
      | none => stripHTML html

/-! ## Reverse-geocode response handling -/

/-- One address component of a geocoding result (the fields of
`maps.AddressComponent` that the source reads). -/
structure AddressComponent where
  LongName : String
  Types : List String

/-- One geocoding result (the fields of `maps.GeocodingResult` that the
source reads). -/
structure GeocodeResult where
  AddressComponents : List AddressComponent
  FormattedAddress : String

/-- Go `extractStreetNameFromReverseGeocode`, with the network part
factored out: `resp` is the first geocoding result, `none` when the call
errored or returned no results.  The first address component typed
`route` wins; a name with a `+` or an `Unnamed` prefix is rejected to
the empty string; with no `route` component the formatted address is
used unless it contains `+` or `Unnamed` anywhere. -/
def extractStreetNameFromReverseGeocode (resp : Option GeocodeResult) : String :=
  match resp with
  | none => ""
  | some r =>
      match r.AddressComponents.find? (fun comp => comp.Types.contains "route") with
      | some comp =>
          if containsStr "+" comp.LongName || hasPrefixStr "Unnamed" comp.LongName then ""
          else comp.LongName
      | none =>
          if containsStr "+" r.FormattedAddress || containsStr "Unnamed" r.FormattedAddress then ""
          else r.FormattedAddress

/-- Street-name resolution of the per-step instruction (handler lines
around `extractStreetNameFromHTML`): the markup-extracted name, with the
fully tag-stripped markup as fallback when it is empty. -/
def resolveStreetName (html : String) : String :=
  let streetName := extractStreetNameFromHTML html
  if streetName = "" then stripHTML html else streetName

/-- Waypoint description resolution of the handler: the reverse-geocode
street name, with the tag-stripped markup instruction as fallback when
it is empty. -/
def resolveDesc (resp : Option GeocodeResult) (html : String) : String :=
  let desc := extractStreetNameFromReverseGeocode resp
  if desc = "" then stripHTML html else desc

/-! ## GeoMath -/

/-- Go `math.Atan2` on real numbers (signed zeros and non-finite values
have no counterpart in `ℝ`). -/
noncomputable def atan2 (y x : ℝ) : ℝ :=
  if 0 < x then Real.arctan (y / x)
  else if x < 0 then
    (if y < 0 then Real.arctan (y / x) - Real.pi else Real.arctan (y / x) + Real.pi)
  else
    (if 0 < y then Real.pi / 2
     else if y < 0 then -(Real.pi / 2)
     else 0)

/-- Go `haversine`: great-circle distance in meters between two
lat/lng points, Earth radius 6 371 000 m. -/
noncomputable def haversine (lat1 lng1 lat2 lng2 : ℝ) : ℝ :=
  let R : ℝ := 6371000.0
  let lat1Rad := lat1 * Real.pi / 180.0
  let lat2Rad := lat2 * Real.pi / 180.0
  let dLat := (lat2 - lat1) * Real.pi / 180.0
  let dLng := (lng2 - lng1) * Real.pi / 180.0
  let a := Real.sin (dLat / 2) * Real.sin (dLat / 2) +
      Real.cos lat1Rad * Real.cos lat2Rad * Real.sin (dLng / 2) * Real.sin (dLng / 2)
  let c := 2 * atan2 (Real.sqrt a) (Real.sqrt (1 - a))
  R * c

/-! ## RouteSimplifier -/

/-- Loop body of Go `simplifyRoute` over the tail of the point list:
`lastKept` is the last appended point; the final element of the list is
appended unconditionally. -/
noncomputable def simplifyAux (minDist : ℝ) (lastKept : Point) : List Point → List Point
  | [] => []
  | [lastPt] => [lastPt]
  | curr :: next :: rest =>
      if haversine lastKept.Lat lastKept.Lng curr.Lat curr.Lng ≥ minDist then
        curr :: simplifyAux minDist curr (next :: rest)
      else
        simplifyAux minDist lastKept (next :: rest)

/-- Go `simplifyRoute` (Stage A, decimation): lists of length at most 2
are returned unchanged; otherwise the first point is kept, interior
points are kept when at least `minDist` from the last kept point, and
the final point is appended unconditionally. -/
noncomputable def simplifyRoute (points : List Point) (minDist : ℝ) : List Point :=
  match points with
  | [] => []
  | [p] => [p]
  | [p, q] => [p, q]
  | p :: rest => p :: simplifyAux minDist p rest

/-- Loop body of Go `removeZigZags`: `prev` is the last kept point,
`curr` the loop element, `next` its raw successor in the input; the
final element is appended unconditionally. -/
noncomputable def zigzagAux (minBacktrack : ℝ) (prev : Point) : List Point → List Point
  | [] => []
  | [lastPt] => [lastPt]
  | curr :: next :: rest =>
      let d1 := haversine prev.Lat prev.Lng curr.Lat curr.Lng
      let d2 := haversine curr.Lat curr.Lng next.Lat next.Lng
      let backtrack := haversine prev.Lat prev.Lng next.Lat next.Lng
      if backtrack < d1 ∧ backtrack < d2 ∧ backtrack < minBacktrack then
        zigzagAux minBacktrack prev (next :: rest)
      else
        curr :: zigzagAux minBacktrack curr (next :: rest)

/-- Go `removeZigZags` (Stage B): lists of length less than 3 are
returned unchanged; otherwise short back-and-forth hops are dropped. -/
noncomputable def removeZigZags (points : List Point) (minBacktrack : ℝ) : List Point :=
  match points with
  | [] => []
  | [p] => [p]
  | [p, q] => [p, q]
  | p :: rest => p :: zigzagAux minBacktrack p rest

/-- Loop body of Go `mergeDuplicateDescriptions`: `lastKept` is the last
appended point; an element is appended when its description differs from
the last appended description. -/
def mergeAux (lastKept : Point) : List Point → List Point
  | [] => []
  | q :: rest =>
      if q.Description ≠ lastKept.Description then q :: mergeAux q rest
      else mergeAux lastKept rest

/-- Go `mergeDuplicateDescriptions` (Stage C): collapse consecutive
points with identical descriptions. -/
def mergeDuplicateDescriptions : List Point → List Point
  | [] => []
  | p :: rest => p :: mergeAux p rest

/-- Downhill-annotation loop of the `/route` handler (Step 4): for each
point except the last, set `IsDownHill := true` when the next point has
a strictly lower elevation; the flag is not cleared otherwise, and the
last point is never written. -/
noncomputable def setDownhill : List Point → List Point
  | [] => []
  | [p] => [p]
  | p :: q :: rest =>
      (if q.Elevation < p.Elevation then { p with IsDownHill := true } else p)
        :: setDownhill (q :: rest)

/-! ## InstructionAggregator (the `/route` handler loop) -/

/-- One raw step of a leg: the fields of `maps.Step` that the source
reads (`StartLocation`, `HTMLInstructions`, `Distance.Meters`, and the
duration already truncated to whole seconds as by `int(...)`). -/
structure Step where
  startLat : ℝ
  startLng : ℝ
  htmlInstructions : String
  distanceMeters : ℤ
  durationSeconds : ℤ

/-- One leg: its steps and its end location (`maps.Leg`). -/
structure Leg where
  steps : List Step
  endLat : ℝ
  endLng : ℝ

/-- The two network collaborators, as oracles: `geocode` yields the
first reverse-geocoding result (`none` on error or empty response) and
`elevation` the looked-up elevation (`none` on error or empty response,
in which case the source uses 0). -/
structure Collab where
  geocode : ℝ → ℝ → Option GeocodeResult
  elevation : ℝ → ℝ → Option ℝ

/-- Mutable state of the per-route loop in the handler: the running
totals, the last non-skipped description of the current leg, and the
accumulated instruction and point lists. -/
structure RouteState where
  cumulativeDistance : ℤ
  cumulativeTime : ℤ
  lastDesc : String
  instructions : List Instruction
  points : List Point

/-- Body of the per-step loop of the handler: emit an `Instruction`
carrying the running totals before the step, add the step's distance
and duration to the totals, then build a waypoint for the step's start
coordinate unless its resolved description is empty or repeats the last
kept description of the leg. -/
def processStep (c : Collab) (s : RouteState) (step : Step) : RouteState :=
  let lat := step.startLat
  let lng := step.startLng
  let streetName := resolveStreetName step.htmlInstructions
  let instruction : Instruction :=
    { Instruction := step.htmlInstructions
      DistanceMeters := s.cumulativeDistance
      DurationSeconds := s.cumulativeTime
      Maneuver := ""
      StreetName := streetName
      StartLocation := { Lat := lat, Lng := lng } }
  let s1 : RouteState :=
    { s with
      instructions := s.instructions ++ [instruction]
      cumulativeDistance := s.cumulativeDistance + step.distanceMeters
      cumulativeTime := s.cumulativeTime + step.durationSeconds }
  let desc := resolveDesc (c.geocode lat lng) step.htmlInstructions
  if desc = "" || desc = s.lastDesc then s1
  else
    let elev := (c.elevation lat lng).getD 0
    { s1 with
      lastDesc := desc
      points := s1.points ++ [⟨lat, lng, desc, elev, false⟩] }

/-- Body of the per-leg loop of the handler: fold the steps (with the
leg-local `lastDesc` freshly declared), then emit the synthetic arrival
instruction with the now-updated totals and append the end-of-leg
waypoint. -/
def processLeg (c : Collab) (s : RouteState) (leg : Leg) : RouteState :=
  let s1 := leg.steps.foldl (processStep c) { s with lastDesc := "" }
  let endDesc0 := extractStreetNameFromReverseGeocode (c.geocode leg.endLat leg.endLng)
  let endDesc := if endDesc0 = "" then "Destination" else endDesc0
  let arrival : Instruction :=
    { Instruction := "Arrive at " ++ endDesc
      DistanceMeters := s1.cumulativeDistance
      DurationSeconds := s1.cumulativeTime
      Maneuver := "arrive"
      StreetName := endDesc
      StartLocation := { Lat := leg.endLat, Lng := leg.endLng } }
  let elev := (c.elevation leg.endLat leg.endLng).getD 0
  { s1 with
    instructions := s1.instructions ++ [arrival]
    points := s1.points ++ [⟨leg.endLat, leg.endLng, endDesc, elev, false⟩] }

/-- Initial per-route state: totals zero, nothing accumulated. -/
def initState : RouteState := ⟨0, 0, "", [], []⟩

/-- The whole per-route aggregation: fold the legs from the initial
state. -/
def processLegs (c : Collab) (legs : List Leg) : RouteState :=
  legs.foldl (processLeg c) initState

/-- Whole per-route computation of the handler: aggregation, the three
simplification stages with the source's thresholds (50 m, 30 m), and the
downhill annotation. -/
noncomputable def buildRoute (c : Collab) (id : ℤ) (legs : List Leg) : Route :=
  let st := processLegs c legs
  let simplified := simplifyRoute st.points 50.0
  let simplified := removeZigZags simplified 30.0
  let simplified := mergeDuplicateDescriptions simplified
  let simplified := setDownhill simplified
  { ID := id, Points := simplified, Instructions := st.instructions }

/-! ## Specification-side definitions

The following definitions are written from the specification's words
(not from the source); each is compared with the corresponding source
function by a refinement theorem. -/

/-- One interior decision of the specification's Stage A: the state is
the pair (last kept point, output so far); a point is kept, and becomes
the new reference, iff its distance from the last kept point is at
least `dmin`. -/
noncomputable def decStep (dmin : ℝ) (st : Point × List Point) (w : Point) : Point × List Point :=
  if haversine st.1.Lat st.1.Lng w.Lat w.Lng ≥ dmin then (w, st.2 ++ [w]) else st

/-- Stage A as the specification words it: always keep `W[0]`; for the
interior indices keep `W[i]` iff the distance from the last kept point
is at least `Dmin`, updating the reference on keep; always keep
`W[n-1]`; sequences of length at most 2 are returned unchanged. -/
noncomputable def decimateSpec (W : List Point) (dmin : ℝ) : List Point :=
  if W.length ≤ 2 then W
  else
    match W with
    | [] => W
    | w0 :: rest =>
        (rest.dropLast.foldl (decStep dmin) (w0, [w0])).2 ++ rest.getLast?.toList

/-- One interior decision of the specification's Stage B: the state is
the pair (last kept point, output so far); the interior element `cn.1`
with raw successor `cn.2` is dropped iff the backtrack distance is
smaller than both adjacent distances and than `zmin`. -/
noncomputable def zigStep (zmin : ℝ) (st : Point × List Point) (cn : Point × Point) :
    Point × List Point :=
  let d1 := haversine st.1.Lat st.1.Lng cn.1.Lat cn.1.Lng
  let d2 := haversine cn.1.Lat cn.1.Lng cn.2.Lat cn.2.Lng
  let back := haversine st.1.Lat st.1.Lng cn.2.Lat cn.2.Lng
  if back < d1 ∧ back < d2 ∧ back < zmin then st else (cn.1, st.2 ++ [cn.1])

/-- Stage B as the specification words it: seed the output with element
0; for each interior element `curr` with `prev` the last kept element
and `next` the raw successor, drop `curr` iff the backtrack distance is
smaller than both segment distances and than `Zmin`; always append the
final element; sequences of length less than 3 are returned unchanged. -/
noncomputable def zigzagSpec (W : List Point) (zmin : ℝ) : List Point :=
  if W.length < 3 then W
  else
    match W with
    | [] => W
    | w0 :: rest =>
        ((rest.zip rest.tail).foldl (zigStep zmin) (w0, [w0])).2 ++ rest.getLast?.toList

/-- Stage C as the specification words it: collapse every maximal run of
consecutive points sharing one description into the first point of the
run. -/
def mergeSpec : List Point → List Point
  | [] => []
  | p :: rest =>
      p :: mergeSpec (rest.dropWhile (fun q => q.Description == p.Description))
  termination_by l => l.length
  decreasing_by
    simp only [List.length_cons]
    exact Nat.lt_succ_of_le (List.dropWhile_sublist _).length_le

/-- Totals carried by the per-step instructions of one leg, as the
specification words it: each step's instruction carries the running
total before that step is added; `f` projects the quantity (distance or
duration) out of a step. -/
def specLegTotals (f : Step → ℤ) (init : ℤ) : List Step → List ℤ
  | [] => []
  | s :: rest => init :: specLegTotals f (init + f s) rest

/-- Totals carried by all instructions of a route, as the specification
words it: route-scoped running totals, never reset between legs, with
the arrival instruction of each leg carrying the totals after the leg's
last step. -/
def specRouteTotals (f : Step → ℤ) (init : ℤ) : List Leg → List ℤ
  | [] => []
  | leg :: rest =>
      let after := init + (leg.steps.map f).sum
      specLegTotals f init leg.steps ++ after :: specRouteTotals f after rest

/-- The claim's rule-1 label filter, per the (amended) specification
words: the reverse-geocode label is usable when it is non-empty,
contains no plus sign and, for a `route` address component, does not
start with `Unnamed`, or, for the formatted-address fallback, does not
contain `Unnamed` anywhere; an unusable label yields `none`. -/
def specExternalLabel (resp : Option GeocodeResult) : Option String :=
  match resp with
  | none => none
  | some r =>
      match r.AddressComponents.find? (fun comp => comp.Types.contains "route") with
      | some comp =>
          if comp.LongName ≠ "" ∧ containsStr "+" comp.LongName = false ∧
              hasPrefixStr "Unnamed" comp.LongName = false
          then some comp.LongName else none
      | none =>
          if r.FormattedAddress ≠ "" ∧ containsStr "+" r.FormattedAddress = false ∧
              containsStr "Unnamed" r.FormattedAddress = false
          then some r.FormattedAddress else none

/-- The resolver exactly as the claim words it: (1) an external label
that is present, non-empty, contains no plus sign and does not start
with `Unnamed` is returned verbatim; (2)-(3) otherwise the markup is
scanned for the keywords and the first bold span, falling back to tag
stripping. -/
def claimResolve (markup : String) (externalLabel : Option String) : String :=
  match externalLabel with
  | some l =>
      if l ≠ "" ∧ containsStr "+" l = false ∧ hasPrefixStr "Unnamed" l = false then l
      else extractStreetNameFromHTML markup
  | none => extractStreetNameFromHTML markup

/-- Waypoints contributed by the steps of one leg, as the (amended)
specification words it: thread the last kept description from the leg
start; resolve each step's description from the reverse-geocode label
with tag-stripped markup as fallback; a step contributes a waypoint,
which carries the resolved description, the looked-up elevation (0 on
failure) and `isDownhill = false`, exactly when its resolved description
is non-empty and differs from the last kept description. -/
def specLegPoints (c : Collab) (lastDesc : String) : List Step → List Point
  | [] => []
  | st :: rest =>
      let desc := resolveDesc (c.geocode st.startLat st.startLng) st.htmlInstructions
      if desc = "" || desc = lastDesc then specLegPoints c lastDesc rest
      else
        ⟨st.startLat, st.startLng, desc, (c.elevation st.startLat st.startLng).getD 0, false⟩
          :: specLegPoints c desc rest

/-- The end-of-leg waypoint: the leg's end coordinate with the
reverse-geocode label (literal `"Destination"` when empty) and the
looked-up elevation (0 on failure). -/
def specEndPoint (c : Collab) (leg : Leg) : Point :=
  let endDesc0 := extractStreetNameFromReverseGeocode (c.geocode leg.endLat leg.endLng)
  let endDesc := if endDesc0 = "" then "Destination" else endDesc0
  ⟨leg.endLat, leg.endLng, endDesc, (c.elevation leg.endLat leg.endLng).getD 0, false⟩

/-- Raw waypoint list of a whole route: per leg, the step waypoints
(with the leg-local last description starting empty) followed by the
end-of-leg waypoint. -/
def specRoutePoints (c : Collab) : List Leg → List Point
  | [] => []
  | leg :: rest =>
      (specLegPoints c "" leg.steps ++ [specEndPoint c leg]) ++ specRoutePoints c rest

/-! ## Concrete data used by witnesses and counterexamples -/

/-- Concrete waypoint used by witnesses. -/
def pA : Point := ⟨0, 0, "A", 0, false⟩

/-- Concrete waypoint used by witnesses. -/
def pB : Point := ⟨3, 4, "B", 10, false⟩

/-- Concrete collaborator whose lookups always fail. -/
def collabW : Collab := ⟨fun _ _ => none, fun _ _ => none⟩

/-- Concrete step used by witnesses. -/
def stepW : Step := ⟨0, 0, "", 5, 3⟩

/-- Concrete one-leg route used by witnesses. -/
def legsW : List Leg := [⟨[stepW], 1, 1⟩]

/-- Concrete waypoint whose caller-supplied downhill flag is already
set. -/
def pT : Point := ⟨0, 0, "t", 5, true⟩

/-- Concrete waypoint at a higher elevation than `pT`. -/
def qT : Point := ⟨0, 0, "u", 7, false⟩

/-- Concrete geocode result naming one street through a `route` address
component. -/
def geoMain : GeocodeResult := ⟨[⟨"Main St", ["route"]⟩], "X"⟩

/-- Concrete collaborator whose reverse geocoding always answers the
same street and whose elevation lookup always fails. -/
def collabC7 : Collab := ⟨fun _ _ => some geoMain, fun _ _ => none⟩

/-- Concrete one-leg route with two steps that resolve to the same
street label. -/
def legsC7 : List Leg := [⟨[⟨0, 0, "a", 1, 1⟩, ⟨2, 2, "b", 1, 1⟩], 9, 9⟩]

/-! ## Lemmas: folds with a (last kept, output) state -/

/-- A fold whose state is a pair of a reference point and an output list
that only ever grows by appending factors through the empty-accumulator
fold. -/
theorem foldl_pair_acc {α : Type} (step : Point × List Point → α → Point × List Point)
    (hstep : ∀ (k : Point) (acc : List Point) (x : α),
      step (k, acc) x = ((step (k, []) x).1, acc ++ (step (k, []) x).2))
    (l : List α) : ∀ (k : Point) (acc : List Point),
      l.foldl step (k, acc) = ((l.foldl step (k, [])).1, acc ++ (l.foldl step (k, [])).2) := by
  induction l with
  | nil => intro k acc; simp
  | cons x xs ih =>
      intro k acc
      simp only [List.foldl_cons]
      rw [hstep k acc x, ih (step (k, []) x).1 (acc ++ (step (k, []) x).2)]
      rw [show step (k, []) x = ((step (k, []) x).1, (step (k, []) x).2) from rfl,
        ih (step (k, []) x).1 (step (k, []) x).2]
      simp

/-- The decimation decision only appends to the accumulated output. -/
theorem decStep_acc (d : ℝ) (k : Point) (acc : List Point) (w : Point) :
    decStep d (k, acc) w = ((decStep d (k, []) w).1, acc ++ (decStep d (k, []) w).2) := by
  simp only [decStep]
  split <;> simp

/-- The zigzag decision only appends to the accumulated output. -/
theorem zigStep_acc (z : ℝ) (k : Point) (acc : List Point) (cn : Point × Point) :
    zigStep z (k, acc) cn = ((zigStep z (k, []) cn).1, acc ++ (zigStep z (k, []) cn).2) := by
  simp only [zigStep]
  split <;> simp

/-- Unfolding of the decimation loop body on a list with at least two
elements left. -/
theorem simplifyAux_cons (d : ℝ) (k curr : Point) (l : List Point) (h : l ≠ []) :
    simplifyAux d k (curr :: l) =
      if haversine k.Lat k.Lng curr.Lat curr.Lng ≥ d
      then curr :: simplifyAux d curr l
      else simplifyAux d k l := by
  cases l with
  | nil => exact absurd rfl h
  | cons b bs => rfl

/-- The decimation loop body agrees with the specification's interior
fold followed by the unconditional append of the final element. -/
theorem simplifyAux_eq_fold (d : ℝ) (interior : List Point) :
    ∀ (k lastPt : Point),
      simplifyAux d k (interior ++ [lastPt]) =
        (interior.foldl (decStep d) (k, [])).2 ++ [lastPt] := by
  induction interior with
  | nil => intro k lastPt; simp [simplifyAux]
  | cons w ws ih =>
      intro k lastPt
      rw [List.cons_append, simplifyAux_cons d k w (ws ++ [lastPt]) (by simp)]
      simp only [List.foldl_cons, decStep]
      by_cases h : haversine k.Lat k.Lng w.Lat w.Lng ≥ d
      · rw [if_pos h, if_pos h, ih w lastPt]
        simp only [List.nil_append]
        rw [foldl_pair_acc (decStep d) (decStep_acc d) ws w [w]]
        simp
      · rw [if_neg h, if_neg h, ih k lastPt]

/-- Unfolding of the zigzag loop body on a list with at least two
elements left. -/
theorem zigzagAux_cons (z : ℝ) (prev curr next : Point) (rest : List Point) :
    zigzagAux z prev (curr :: next :: rest) =
      if haversine prev.Lat prev.Lng next.Lat next.Lng <
            haversine prev.Lat prev.Lng curr.Lat curr.Lng ∧
          haversine prev.Lat prev.Lng next.Lat next.Lng <
            haversine curr.Lat curr.Lng next.Lat next.Lng ∧
          haversine prev.Lat prev.Lng next.Lat next.Lng < z then
        zigzagAux z prev (next :: rest)
      else curr :: zigzagAux z curr (next :: rest) := rfl

/-- The zigzag loop body agrees with the specification's fold over the
(interior, raw successor) pairs followed by the unconditional append of
the final element. -/
theorem zigzagAux_eq_fold (z : ℝ) (l : List Point) :
    ∀ (prev : Point),
      zigzagAux z prev l =
        ((l.zip l.tail).foldl (zigStep z) (prev, [])).2 ++ l.getLast?.toList := by
  induction l with
  | nil => intro prev; simp [zigzagAux]
  | cons curr t ih =>
      intro prev
      cases t with
      | nil => simp [zigzagAux]
      | cons next rest =>
          rw [zigzagAux_cons]
          simp only [List.tail_cons, List.zip_cons_cons, List.foldl_cons, zigStep,
            List.getLast?_cons_cons]
          by_cases h : haversine prev.Lat prev.Lng next.Lat next.Lng <
                haversine prev.Lat prev.Lng curr.Lat curr.Lng ∧
              haversine prev.Lat prev.Lng next.Lat next.Lng <
                haversine curr.Lat curr.Lng next.Lat next.Lng ∧
              haversine prev.Lat prev.Lng next.Lat next.Lng < z
          · rw [if_pos h, if_pos h, ih prev]
            simp only [List.tail_cons]
          · rw [if_neg h, if_neg h, ih curr]
            simp only [List.tail_cons, List.nil_append]
            rw [foldl_pair_acc (zigStep z) (zigStep_acc z) ((next :: rest).zip rest) curr [curr]]
            simp

/-- The zigzag loop never produces more points than it consumes. -/
theorem zigzagAux_length (z : ℝ) (l : List Point) :
    ∀ prev : Point, (zigzagAux z prev l).length ≤ l.length := by
  induction l with
  | nil => intro prev; simp [zigzagAux]
  | cons curr t ih =>
      intro prev
      cases t with
      | nil => simp [zigzagAux]
      | cons next rest =>
          rw [zigzagAux_cons]
          split
          · exact Nat.le_succ_of_le (ih prev)
          · simpa using ih curr

/-- The merge loop agrees with the specification's run collapsing: from
a last kept point, the loop output is the run collapsing of the list
with the remainder of the last kept point's run removed. -/
theorem mergeAux_eq_spec (l : List Point) :
    ∀ lastKept : Point,
      mergeAux lastKept l =
        mergeSpec (l.dropWhile (fun q => q.Description == lastKept.Description)) := by
  induction l with
  | nil => intro lastKept; simp [mergeAux, mergeSpec]
  | cons q rest ih =>
      intro lastKept
      by_cases hd : q.Description = lastKept.Description
      · rw [List.dropWhile_cons_of_pos (by simp [hd])]
        simp only [mergeAux, if_neg (by simp [hd] : ¬q.Description ≠ lastKept.Description)]
        rw [ih lastKept]
      · rw [List.dropWhile_cons_of_neg (by simp [hd])]
        simp only [mergeAux, if_pos (by simp [hd] : q.Description ≠ lastKept.Description)]
        rw [mergeSpec, ih q]

/-- The merge loop output is a sublist of its input. -/
theorem mergeAux_sublist (l : List Point) :
    ∀ lastKept : Point, List.Sublist (mergeAux lastKept l) l := by
  induction l with
  | nil => intro lastKept; simp [mergeAux]
  | cons q rest ih =>
      intro lastKept
      simp only [mergeAux]
      split
      · exact List.Sublist.cons₂ q (ih q)
      · exact List.Sublist.cons q (ih lastKept)

/-! ## Lemmas: the per-step and per-leg folds of the aggregator -/

/-- The per-step loop body adds the step's distance to the running
distance total. -/
theorem processStep_cumDist (c : Collab) (s : RouteState) (st : Step) :
    (processStep c s st).cumulativeDistance = s.cumulativeDistance + st.distanceMeters := by
  simp only [processStep]
  split <;> rfl

/-- The per-step loop body adds the step's duration to the running time
total. -/
theorem processStep_cumTime (c : Collab) (s : RouteState) (st : Step) :
    (processStep c s st).cumulativeTime = s.cumulativeTime + st.durationSeconds := by
  simp only [processStep]
  split <;> rfl

/-- The per-step loop body appends exactly one instruction, carrying the
totals before the step, the empty maneuver, and the markup-resolved
street name. -/
theorem processStep_instrs (c : Collab) (s : RouteState) (st : Step) :
    (processStep c s st).instructions = s.instructions ++
      [{ Instruction := st.htmlInstructions
         DistanceMeters := s.cumulativeDistance
         DurationSeconds := s.cumulativeTime
         Maneuver := ""
         StreetName := resolveStreetName st.htmlInstructions
         StartLocation := { Lat := st.startLat, Lng := st.startLng } }] := by
  simp only [processStep]
  split <;> rfl

/-- Running totals after the step fold: the initial totals plus the sums
of the steps' distances and durations. -/
theorem foldl_processStep_cum (c : Collab) (steps : List Step) :
    ∀ s : RouteState,
      (steps.foldl (processStep c) s).cumulativeDistance =
          s.cumulativeDistance + (steps.map (fun st => st.distanceMeters)).sum ∧
      (steps.foldl (processStep c) s).cumulativeTime =
          s.cumulativeTime + (steps.map (fun st => st.durationSeconds)).sum := by
  induction steps with
  | nil => intro s; simp
  | cons st rest ih =>
      intro s
      simp only [List.foldl_cons, List.map_cons, List.sum_cons]
      obtain ⟨h1, h2⟩ := ih (processStep c s st)
      rw [h1, h2, processStep_cumDist, processStep_cumTime]
      constructor <;> ring

/-- Distance totals carried by the instructions after the step fold. -/
theorem foldl_processStep_dist (c : Collab) (steps : List Step) :
    ∀ s : RouteState,
      (steps.foldl (processStep c) s).instructions.map (fun i => i.DistanceMeters) =
        s.instructions.map (fun i => i.DistanceMeters) ++
          specLegTotals (fun st => st.distanceMeters) s.cumulativeDistance steps := by
  induction steps with
  | nil => intro s; simp [specLegTotals]
  | cons st rest ih =>
      intro s
      simp only [List.foldl_cons, specLegTotals]
      rw [ih (processStep c s st), processStep_instrs, processStep_cumDist]
      simp

/-- Duration totals carried by the instructions after the step fold. -/
theorem foldl_processStep_dur (c : Collab) (steps : List Step) :
    ∀ s : RouteState,
      (steps.foldl (processStep c) s).instructions.map (fun i => i.DurationSeconds) =
        s.instructions.map (fun i => i.DurationSeconds) ++
          specLegTotals (fun st => st.durationSeconds) s.cumulativeTime steps := by
  induction steps with
  | nil => intro s; simp [specLegTotals]
  | cons st rest ih =>
      intro s
      simp only [List.foldl_cons, specLegTotals]
      rw [ih (processStep c s st), processStep_instrs, processStep_cumTime]
      simp

/-- The step fold appends only instructions with an empty maneuver. -/
theorem foldl_processStep_man (c : Collab) (steps : List Step) :
    ∀ s : RouteState,
      (steps.foldl (processStep c) s).instructions.map (fun i => i.Maneuver) =
        s.instructions.map (fun i => i.Maneuver) ++ List.replicate steps.length "" := by
  induction steps with
  | nil => intro s; simp
  | cons st rest ih =>
      intro s
      simp only [List.foldl_cons, List.length_cons]
      rw [ih (processStep c s st), processStep_instrs]
      simp [List.replicate_succ]

/-- The step fold contributes exactly the specification's kept waypoints
of the leg, threading the last kept description. -/
theorem foldl_processStep_points (c : Collab) (steps : List Step) :
    ∀ s : RouteState,
      (steps.foldl (processStep c) s).points =
        s.points ++ specLegPoints c s.lastDesc steps := by
  induction steps with
  | nil => intro s; simp [specLegPoints]
  | cons st rest ih =>
      intro s
      simp only [List.foldl_cons, specLegPoints, processStep]
      split
      · rw [ih]
      · rw [ih]
        simp

/-- The per-leg body adds the leg's step distances to the running
distance total. -/
theorem processLeg_cumDist (c : Collab) (s : RouteState) (leg : Leg) :
    (processLeg c s leg).cumulativeDistance =
      s.cumulativeDistance + (leg.steps.map (fun st => st.distanceMeters)).sum := by
  simp only [processLeg]
  exact (foldl_processStep_cum c leg.steps _).1

/-- The per-leg body adds the leg's step durations to the running time
total. -/
theorem processLeg_cumTime (c : Collab) (s : RouteState) (leg : Leg) :
    (processLeg c s leg).cumulativeTime =
      s.cumulativeTime + (leg.steps.map (fun st => st.durationSeconds)).sum := by
  simp only [processLeg]
  exact (foldl_processStep_cum c leg.steps _).2

/-- Distance totals carried by the instructions appended by one leg:
the per-step before-totals followed by the arrival instruction's
after-total. -/
theorem processLeg_dist (c : Collab) (s : RouteState) (leg : Leg) :
    (processLeg c s leg).instructions.map (fun i => i.DistanceMeters) =
      s.instructions.map (fun i => i.DistanceMeters) ++
        (specLegTotals (fun st => st.distanceMeters) s.cumulativeDistance leg.steps ++
          [s.cumulativeDistance + (leg.steps.map (fun st => st.distanceMeters)).sum]) := by
  simp only [processLeg, List.map_append]
  rw [foldl_processStep_dist c leg.steps _, (foldl_processStep_cum c leg.steps _).1]
  simp

/-- Duration totals carried by the instructions appended by one leg. -/
theorem processLeg_dur (c : Collab) (s : RouteState) (leg : Leg) :
    (processLeg c s leg).instructions.map (fun i => i.DurationSeconds) =
      s.instructions.map (fun i => i.DurationSeconds) ++
        (specLegTotals (fun st => st.durationSeconds) s.cumulativeTime leg.steps ++
          [s.cumulativeTime + (leg.steps.map (fun st => st.durationSeconds)).sum]) := by
  simp only [processLeg, List.map_append]
  rw [foldl_processStep_dur c leg.steps _, (foldl_processStep_cum c leg.steps _).2]
  simp

/-- Distance totals of all instructions after the leg fold: the
specification's route-scoped totals threaded from the initial running
total, which is never reset between legs. -/
theorem foldl_processLeg_dist (c : Collab) (legs : List Leg) :
    ∀ s : RouteState,
      (legs.foldl (processLeg c) s).instructions.map (fun i => i.DistanceMeters) =
          s.instructions.map (fun i => i.DistanceMeters) ++
            specRouteTotals (fun st => st.distanceMeters) s.cumulativeDistance legs ∧
      (legs.foldl (processLeg c) s).cumulativeDistance =
          s.cumulativeDistance +
            (legs.map (fun l => (l.steps.map (fun st => st.distanceMeters)).sum)).sum := by
  induction legs with
  | nil => intro s; simp [specRouteTotals]
  | cons leg rest ih =>
      intro s
      simp only [List.foldl_cons, specRouteTotals, List.map_cons, List.sum_cons]
      obtain ⟨h1, h2⟩ := ih (processLeg c s leg)
      rw [h1, h2, processLeg_dist, processLeg_cumDist]
      constructor
      · simp
      · ring

/-- Duration totals of all instructions after the leg fold. -/
theorem foldl_processLeg_dur (c : Collab) (legs : List Leg) :
    ∀ s : RouteState,
      (legs.foldl (processLeg c) s).instructions.map (fun i => i.DurationSeconds) =
          s.instructions.map (fun i => i.DurationSeconds) ++
            specRouteTotals (fun st => st.durationSeconds) s.cumulativeTime legs ∧
      (legs.foldl (processLeg c) s).cumulativeTime =
          s.cumulativeTime +
            (legs.map (fun l => (l.steps.map (fun st => st.durationSeconds)).sum)).sum := by
  induction legs with
  | nil => intro s; simp [specRouteTotals]
  | cons leg rest ih =>
      intro s
      simp only [List.foldl_cons, specRouteTotals, List.map_cons, List.sum_cons]
      obtain ⟨h1, h2⟩ := ih (processLeg c s leg)
      rw [h1, h2, processLeg_dur, processLeg_cumTime]
      constructor
      · simp
      · ring

/-- The step fold never appends an arrival-tagged instruction. -/
theorem foldl_processStep_count (c : Collab) (steps : List Step) :
    ∀ s : RouteState,
      (steps.foldl (processStep c) s).instructions.countP (fun i => i.Maneuver == "arrive") =
        s.instructions.countP (fun i => i.Maneuver == "arrive") := by
  induction steps with
  | nil => intro s; rfl
  | cons st rest ih =>
      intro s
      simp only [List.foldl_cons]
      rw [ih (processStep c s st), processStep_instrs]
      simp

/-- One leg appends exactly one arrival-tagged instruction. -/
theorem processLeg_count (c : Collab) (s : RouteState) (leg : Leg) :
    (processLeg c s leg).instructions.countP (fun i => i.Maneuver == "arrive") =
      s.instructions.countP (fun i => i.Maneuver == "arrive") + 1 := by
  simp only [processLeg]
  rw [List.countP_append, foldl_processStep_count c leg.steps _]
  simp

/-- The leg fold appends exactly one arrival-tagged instruction per
leg. -/
theorem foldl_processLeg_count (c : Collab) (legs : List Leg) :
    ∀ s : RouteState,
      (legs.foldl (processLeg c) s).instructions.countP (fun i => i.Maneuver == "arrive") =
        s.instructions.countP (fun i => i.Maneuver == "arrive") + legs.length := by
  induction legs with
  | nil => intro s; simp
  | cons leg rest ih =>
      intro s
      simp only [List.foldl_cons, List.length_cons]
      rw [ih (processLeg c s leg), processLeg_count]
      ring

/-- Any instruction present after the step fold was present before or
carries the empty maneuver. -/
theorem foldl_processStep_mem (c : Collab) (steps : List Step) :
    ∀ (s : RouteState) (i : Instruction),
      i ∈ (steps.foldl (processStep c) s).instructions →
        i ∈ s.instructions ∨ i.Maneuver = "" := by
  induction steps with
  | nil => intro s i hi; exact Or.inl hi
  | cons st rest ih =>
      intro s i hi
      rcases ih (processStep c s st) i hi with h | h
      · rw [processStep_instrs] at h
        rcases List.mem_append.mp h with h | h
        · exact Or.inl h
        · right
          rw [List.mem_singleton.mp h]
      · exact Or.inr h

/-- Any instruction present after the leg fold was present before or
carries the empty or the arrival maneuver. -/
theorem foldl_processLeg_mem (c : Collab) (legs : List Leg) :
    ∀ (s : RouteState) (i : Instruction),
      i ∈ (legs.foldl (processLeg c) s).instructions →
        i ∈ s.instructions ∨ i.Maneuver = "" ∨ i.Maneuver = "arrive" := by
  induction legs with
  | nil => intro s i hi; exact Or.inl hi
  | cons leg rest ih =>
      intro s i hi
      rcases ih (processLeg c s leg) i hi with h | h
      · simp only [processLeg] at h
        rcases List.mem_append.mp h with h | h
        · rcases foldl_processStep_mem c leg.steps _ i h with h2 | h2
          · exact Or.inl h2
          · exact Or.inr (Or.inl h2)
        · right; right
          rw [List.mem_singleton.mp h]
      · exact Or.inr h

/-- The waypoints appended by one leg are the specification's kept step
waypoints followed by the end-of-leg waypoint. -/
theorem processLeg_points (c : Collab) (s : RouteState) (leg : Leg) :
    (processLeg c s leg).points =
      s.points ++ (specLegPoints c "" leg.steps ++ [specEndPoint c leg]) := by
  simp only [processLeg]
  rw [foldl_processStep_points c leg.steps _]
  simp [specEndPoint]

/-- The waypoints after the leg fold are the initial ones followed by
the specification's route waypoints. -/
theorem foldl_processLeg_points (c : Collab) (legs : List Leg) :
    ∀ s : RouteState,
      (legs.foldl (processLeg c) s).points = s.points ++ specRoutePoints c legs := by
  induction legs with
  | nil => intro s; simp [specRoutePoints]
  | cons leg rest ih =>
      intro s
      simp only [List.foldl_cons, specRoutePoints]
      rw [ih (processLeg c s leg), processLeg_points]
      simp

/-- The specification's leg totals, extended by the after-leg total,
form a non-decreasing chain bounded below by the initial total, when
every step quantity is non-negative. -/
theorem specLegTotals_chain (f : Step → ℤ) (steps : List Step) :
    ∀ init : ℤ, (∀ st ∈ steps, 0 ≤ f st) →
      List.Chain' (· ≤ ·) (specLegTotals f init steps ++ [init + (steps.map f).sum]) ∧
      ∀ x ∈ specLegTotals f init steps ++ [init + (steps.map f).sum], init ≤ x := by
  induction steps with
  | nil =>
      intro init h
      constructor
      · simp [specLegTotals]
      · intro x hx
        simp [specLegTotals] at hx
        simp [hx]
  | cons st rest ih =>
      intro init h
      have hst : 0 ≤ f st := h st (List.mem_cons_self st rest)
      have hrest : ∀ x ∈ rest, 0 ≤ f x := fun x hx => h x (List.mem_cons_of_mem st hx)
      obtain ⟨ihc, ihm⟩ := ih (init + f st) hrest
      have hsum : init + ((st :: rest).map f).sum = init + f st + (rest.map f).sum := by
        rw [List.map_cons, List.sum_cons]
        ring
      constructor
      · simp only [specLegTotals, List.cons_append, hsum]
        rw [List.chain'_cons']
        refine ⟨?_, ihc⟩
        intro y hy
        have hymem : y ∈ specLegTotals f (init + f st) rest ++ [init + f st + (rest.map f).sum] :=
          List.mem_of_mem_head? hy
        calc init ≤ init + f st := by linarith
          _ ≤ y := ihm y hymem
      · intro x hx
        simp only [specLegTotals, List.cons_append, hsum, List.mem_cons] at hx
        rcases hx with h1 | h1
        · simp [h1]
        · calc init ≤ init + f st := by linarith
            _ ≤ x := ihm x h1

/-- The specification's route totals form a non-decreasing chain bounded
below by the initial total, when every step quantity is non-negative. -/
theorem specRouteTotals_chain (f : Step → ℤ) (legs : List Leg) :
    ∀ init : ℤ, (∀ l ∈ legs, ∀ st ∈ l.steps, 0 ≤ f st) →
      List.Chain' (· ≤ ·) (specRouteTotals f init legs) ∧
      ∀ x ∈ specRouteTotals f init legs, init ≤ x := by
  induction legs with
  | nil => intro init h; simp [specRouteTotals]
  | cons leg rest ih =>
      intro init h
      have hleg : ∀ st ∈ leg.steps, 0 ≤ f st := h leg (List.mem_cons_self leg rest)
      have hrest : ∀ l ∈ rest, ∀ st ∈ l.steps, 0 ≤ f st :=
        fun l hl => h l (List.mem_cons_of_mem leg hl)
      have hsum : (0 : ℤ) ≤ (leg.steps.map f).sum :=
        List.sum_nonneg (by
          intro x hx
          rcases List.mem_map.mp hx with ⟨st, hst, rfl⟩
          exact hleg st hst)
      obtain ⟨lc, lm⟩ := specLegTotals_chain f leg.steps init hleg
      obtain ⟨rc, rm⟩ := ih (init + (leg.steps.map f).sum) hrest
      have hshape : specRouteTotals f init (leg :: rest) =
          (specLegTotals f init leg.steps ++ [init + (leg.steps.map f).sum]) ++
            specRouteTotals f (init + (leg.steps.map f).sum) rest := by
        simp [specRouteTotals]
      constructor
      · rw [hshape, List.chain'_append]
        refine ⟨lc, rc, ?_⟩
        intro x hx y hy
        have hxv : x = init + (leg.steps.map f).sum := by
          rw [List.getLast?_concat] at hx
          exact (Option.some_inj.mp hx).symm
        have hymem : y ∈ specRouteTotals f (init + (leg.steps.map f).sum) rest :=
          List.mem_of_mem_head? hy
        rw [hxv]
        exact rm y hymem
      · intro x hx
        rw [hshape] at hx
        rcases List.mem_append.mp hx with h1 | h1
        · exact lm x h1
        · calc init ≤ init + (leg.steps.map f).sum := by linarith
            _ ≤ x := rm x h1

/-- Every specification step waypoint has a false downhill flag and the
looked-up elevation of its own coordinates. -/
theorem specLegPoints_mem (c : Collab) (steps : List Step) :
    ∀ (lastDesc : String) (pt : Point), pt ∈ specLegPoints c lastDesc steps →
      pt.IsDownHill = false ∧ pt.Elevation = (c.elevation pt.Lat pt.Lng).getD 0 := by
  induction steps with
  | nil => intro lastDesc pt hpt; simp [specLegPoints] at hpt
  | cons st rest ih =>
      intro lastDesc pt hpt
      simp only [specLegPoints] at hpt
      split at hpt
      · exact ih lastDesc pt hpt
      · rcases List.mem_cons.mp hpt with h1 | h1
        · subst h1
          exact ⟨rfl, rfl⟩
        · exact ih _ pt h1

/-- Every specification route waypoint has a false downhill flag and the
looked-up elevation of its own coordinates. -/
theorem specRoutePoints_mem (c : Collab) (legs : List Leg) :
    ∀ pt : Point, pt ∈ specRoutePoints c legs →
      pt.IsDownHill = false ∧ pt.Elevation = (c.elevation pt.Lat pt.Lng).getD 0 := by
  induction legs with
  | nil => intro pt hpt; simp [specRoutePoints] at hpt
  | cons leg rest ih =>
      intro pt hpt
      simp only [specRoutePoints, List.append_assoc, List.mem_append] at hpt
      rcases hpt with h1 | h1 | h1
      · exact specLegPoints_mem c leg.steps "" pt h1
      · rw [List.mem_singleton.mp h1]
        exact ⟨rfl, rfl⟩
      · exact ih pt h1

/-! ## Claims about the RouteSimplifier stages -/

/-- C1: Stage A decimation. The source's `simplifyRoute` equals the
specification's decimation (`decimateSpec`): inputs of length at most 2
are returned unchanged; otherwise `W[0]` is always kept, an interior
element is kept iff its haversine distance from the most recently kept
element is at least `Dmin` (the kept element becoming the new
reference), and `W[n-1]` is always kept.  In addition the output always
starts with the input's first element and ends with its last. -/
theorem decimation_matches_spec :
    (∀ (W : List Point) (d : ℝ), simplifyRoute W d = decimateSpec W d) ∧
    (∀ (W : List Point) (d : ℝ), W.length ≤ 2 → simplifyRoute W d = W) ∧
    (∀ (W : List Point) (d : ℝ), (simplifyRoute W d).head? = W.head?) ∧
    (∀ (W : List Point) (d : ℝ), (simplifyRoute W d).getLast? = W.getLast?) := by
  refine ⟨?_, ?_, ?_, ?_⟩
  · intro W d
    match W with
    | [] => rfl
    | [p] => rfl
    | [p, q] => rfl
    | p :: q :: r :: rest =>
        have hne : (q :: r :: rest) ≠ ([] : List Point) := by simp
        show p :: simplifyAux d p (q :: r :: rest) = _
        simp only [decimateSpec]
        rw [if_neg (by simp)]
        conv_lhs => rw [(List.dropLast_append_getLast hne).symm]
        rw [simplifyAux_eq_fold,
          foldl_pair_acc (decStep d) (decStep_acc d) (q :: r :: rest).dropLast p [p],
          List.getLast?_eq_getLast _ hne]
        simp
  · intro W d h
    match W with
    | [] => rfl
    | [p] => rfl
    | [p, q] => rfl
    | p :: q :: r :: rest => simp at h
  · intro W d
    match W with
    | [] => rfl
    | [p] => rfl
    | [p, q] => rfl
    | p :: q :: r :: rest => rfl
  · intro W d
    match W with
    | [] => rfl
    | [p] => rfl
    | [p, q] => rfl
    | p :: q :: r :: rest =>
        have hne : (q :: r :: rest) ≠ ([] : List Point) := by simp
        show (p :: simplifyAux d p (q :: r :: rest)).getLast? = _
        conv_lhs => rw [(List.dropLast_append_getLast hne).symm]
        rw [simplifyAux_eq_fold]
        rw [show p :: ((List.foldl (decStep d) (p, []) (q :: r :: rest).dropLast).2 ++
            [(q :: r :: rest).getLast hne]) =
          (p :: (List.foldl (decStep d) (p, []) (q :: r :: rest).dropLast).2) ++
            [(q :: r :: rest).getLast hne] from by simp]
        rw [List.getLast?_concat, List.getLast?_cons_cons, List.getLast?_eq_getLast _ hne]

/-- Witness for C1 at a concrete length-2 input. -/
theorem decimation_matches_spec_witness :
    simplifyRoute [pA, pB] 50 = [pA, pB] :=
  decimation_matches_spec.2.1 [pA, pB] 50 (by simp)

/-- C2: Stage B zigzag removal. The source's `removeZigZags` equals the
specification's fold (`zigzagSpec`): for inputs of length at least 3 the
first element is kept, an interior element `curr` with `prev` the last
kept element and `next` its raw successor is dropped iff
`back < d1 ∧ back < d2 ∧ back < Zmin`, and the final element is always
appended; shorter inputs are returned unchanged; the output is never
longer than the input. -/
theorem zigzag_removal_matches_spec :
    (∀ (W : List Point) (z : ℝ), removeZigZags W z = zigzagSpec W z) ∧
    (∀ (W : List Point) (z : ℝ), W.length < 3 → removeZigZags W z = W) ∧
    (∀ (W : List Point) (z : ℝ), (removeZigZags W z).length ≤ W.length) := by
  refine ⟨?_, ?_, ?_⟩
  · intro W z
    match W with
    | [] => rfl
    | [p] => rfl
    | [p, q] => rfl
    | p :: q :: r :: rest =>
        show p :: zigzagAux z p (q :: r :: rest) = _
        simp only [zigzagSpec]
        rw [if_neg (by simp)]
        rw [zigzagAux_eq_fold,
          foldl_pair_acc (zigStep z) (zigStep_acc z) ((q :: r :: rest).zip (q :: r :: rest).tail)
            p [p]]
        simp
  · intro W z h
    match W with
    | [] => rfl
    | [p] => rfl
    | [p, q] => rfl
    | p :: q :: r :: rest =>
        simp only [List.length_cons] at h
        omega
  · intro W z
    match W with
    | [] => simp [removeZigZags]
    | [p] => simp [removeZigZags]
    | [p, q] => simp [removeZigZags]
    | p :: q :: r :: rest =>
        show (p :: zigzagAux z p (q :: r :: rest)).length ≤ _
        simpa using zigzagAux_length z (q :: r :: rest) p

/-- Witness for C2 at a concrete length-2 input. -/
theorem zigzag_removal_matches_spec_witness :
    removeZigZags [pA, pB] 30 = [pA, pB] :=
  zigzag_removal_matches_spec.2.1 [pA, pB] 30 (by simp)

/-- C3: Stage C duplicate-label merge. The source's
`mergeDuplicateDescriptions` equals the specification's run collapsing
(`mergeSpec`): every maximal run of consecutive waypoints sharing one
description collapses to its first element; the empty sequence maps to
the empty sequence; the output is a sublist of the input, so the
retained representatives keep their relative order. -/
theorem duplicate_merge_matches_spec :
    (∀ l : List Point, mergeDuplicateDescriptions l = mergeSpec l) ∧
    (mergeDuplicateDescriptions ([] : List Point) = []) ∧
    (∀ l : List Point, List.Sublist (mergeDuplicateDescriptions l) l) := by
  refine ⟨?_, rfl, ?_⟩
  · intro l
    cases l with
    | nil => simp [mergeDuplicateDescriptions, mergeSpec]
    | cons p rest =>
        simp only [mergeDuplicateDescriptions]
        rw [mergeSpec, mergeAux_eq_spec rest p]
  · intro l
    cases l with
    | nil => simp [mergeDuplicateDescriptions]
    | cons p rest =>
        simp only [mergeDuplicateDescriptions]
        exact List.Sublist.cons₂ p (mergeAux_sublist rest p)

/-- C9: GeoMath distance. The source's `haversine` vanishes on equal
points and is symmetric in its two coordinate pairs; as a function on
`ℝ` it is total by construction. -/
theorem haversine_zero_and_symm :
    (∀ lat lng : ℝ, haversine lat lng lat lng = 0) ∧
    (∀ lat1 lng1 lat2 lng2 : ℝ,
      haversine lat1 lng1 lat2 lng2 = haversine lat2 lng2 lat1 lng1) := by
  constructor
  · intro lat lng
    simp [haversine, atan2]
  · intro lat1 lng1 lat2 lng2
    simp only [haversine]
    have e1 : Real.sin ((lat1 - lat2) * Real.pi / 180.0 / 2) =
        -Real.sin ((lat2 - lat1) * Real.pi / 180.0 / 2) := by
      rw [show (lat1 - lat2) * Real.pi / 180.0 / 2 =
          -((lat2 - lat1) * Real.pi / 180.0 / 2) from by ring, Real.sin_neg]
    have e2 : Real.sin ((lng1 - lng2) * Real.pi / 180.0 / 2) =
        -Real.sin ((lng2 - lng1) * Real.pi / 180.0 / 2) := by
      rw [show (lng1 - lng2) * Real.pi / 180.0 / 2 =
          -((lng2 - lng1) * Real.pi / 180.0 / 2) from by ring, Real.sin_neg]
    rw [e1, e2]
    ring_nf

/-! ## Claims about the InstructionAggregator -/

/-- C4: cumulative totals. Within one route the running totals start at
0 and are route-scoped: the distance and duration fields carried by the
emitted instructions equal the specification's route totals
(`specRouteTotals`), in which each per-step instruction carries the
totals before its step and the totals are threaded across legs without
reset; consequently, when every step's distance and duration are
non-negative, both fields are non-decreasing along the whole route. -/
theorem aggregator_totals_cumulative (c : Collab) (legs : List Leg)
    (hd : ∀ l ∈ legs, ∀ st ∈ l.steps, 0 ≤ st.distanceMeters)
    (ht : ∀ l ∈ legs, ∀ st ∈ l.steps, 0 ≤ st.durationSeconds) :
    ((processLegs c legs).instructions.map (fun i => i.DistanceMeters) =
        specRouteTotals (fun st => st.distanceMeters) 0 legs) ∧
    ((processLegs c legs).instructions.map (fun i => i.DurationSeconds) =
        specRouteTotals (fun st => st.durationSeconds) 0 legs) ∧
    List.Chain' (· ≤ ·) ((processLegs c legs).instructions.map (fun i => i.DistanceMeters)) ∧
    List.Chain' (· ≤ ·) ((processLegs c legs).instructions.map (fun i => i.DurationSeconds)) := by
  have e1 : (processLegs c legs).instructions.map (fun i => i.DistanceMeters) =
      specRouteTotals (fun st => st.distanceMeters) 0 legs := by
    have h := (foldl_processLeg_dist c legs initState).1
    simpa [processLegs, initState] using h
  have e2 : (processLegs c legs).instructions.map (fun i => i.DurationSeconds) =
      specRouteTotals (fun st => st.durationSeconds) 0 legs := by
    have h := (foldl_processLeg_dur c legs initState).1
    simpa [processLegs, initState] using h
  refine ⟨e1, e2, ?_, ?_⟩
  · rw [e1]
    exact (specRouteTotals_chain (fun st => st.distanceMeters) legs 0 hd).1
  · rw [e2]
    exact (specRouteTotals_chain (fun st => st.durationSeconds) legs 0 ht).1

/-- Witness for C4 at a concrete one-leg route. -/
theorem aggregator_totals_cumulative_witness :
    List.Chain' (· ≤ ·)
      ((processLegs collabW legsW).instructions.map (fun i => i.DistanceMeters)) :=
  (aggregator_totals_cumulative collabW legsW (by decide) (by decide)).2.2.1

/-- C8: arrival instruction. The last instruction appended by every leg
is the synthetic arrival: maneuver `"arrive"`, start coordinate the
leg's end coordinate, totals equal to the running totals after the
leg's last step, street name the reverse-geocode label with fallback
`"Destination"`; the last appended waypoint is the matching end-of-leg
waypoint; and a route emits exactly one arrival-tagged instruction per
leg. -/
theorem arrival_instruction_correct :
    (∀ (c : Collab) (s : RouteState) (leg : Leg),
      (processLeg c s leg).instructions.getLast? = some
        { Instruction := "Arrive at " ++ (specEndPoint c leg).Description
          DistanceMeters :=
            s.cumulativeDistance + (leg.steps.map (fun st => st.distanceMeters)).sum
          DurationSeconds :=
            s.cumulativeTime + (leg.steps.map (fun st => st.durationSeconds)).sum
          Maneuver := "arrive"
          StreetName := (specEndPoint c leg).Description
          StartLocation := { Lat := leg.endLat, Lng := leg.endLng } }) ∧
    (∀ (c : Collab) (s : RouteState) (leg : Leg),
      (processLeg c s leg).points.getLast? = some (specEndPoint c leg)) ∧
    (∀ (c : Collab) (legs : List Leg),
      (processLegs c legs).instructions.countP (fun i => i.Maneuver == "arrive") =
        legs.length) := by
  refine ⟨?_, ?_, ?_⟩
  · intro c s leg
    simp only [processLeg, List.getLast?_concat]
    rw [(foldl_processStep_cum c leg.steps _).1, (foldl_processStep_cum c leg.steps _).2]
    simp [specEndPoint]
  · intro c s leg
    simp only [processLeg, List.getLast?_concat]
    simp [specEndPoint]
  · intro c legs
    have h := foldl_processLeg_count c legs initState
    simpa [processLegs, initState] using h

/-- C10: maneuver values. Every instruction emitted for a route carries
either the empty maneuver (per-step instructions) or the maneuver
`"arrive"` (end-of-leg instructions). -/
theorem maneuver_values (c : Collab) (legs : List Leg) :
    List.Forall (fun i => i.Maneuver = "" ∨ i.Maneuver = "arrive")
      (processLegs c legs).instructions := by
  rw [List.forall_iff_forall_mem]
  intro i hi
  rcases foldl_processLeg_mem c legs initState i hi with h | h
  · simp [initState] at h
  · exact h

/-- C7 counterexample: a one-leg route with two steps whose resolved
descriptions coincide.  The claim's count (one waypoint per step plus
the end-of-leg waypoint) is 3, but the handler skips the repeated
description and builds only 2 waypoints. -/
theorem waypoint_per_step_counterexample :
    (legsC7.map (fun l => l.steps.length)).sum + legsC7.length = 3 ∧
    (processLegs collabC7 legsC7).points.length = 2 ∧
    (processLegs collabC7 legsC7).points.length ≠
      (legsC7.map (fun l => l.steps.length)).sum + legsC7.length := by
  refine ⟨by decide, by decide, by decide⟩

/-- C7 amended: a waypoint is built for a step's start coordinate
exactly when its resolved description is non-empty and differs from the
last kept description of the leg (`specRoutePoints`); every built
waypoint has `isDownhill = false` and carries the collaborator-supplied
elevation of its own coordinates, with 0 when the lookup fails, so a
failure never propagates. -/
theorem waypoint_construction_amended :
    (∀ (c : Collab) (legs : List Leg),
      (processLegs c legs).points = specRoutePoints c legs) ∧
    (∀ (c : Collab) (legs : List Leg),
      List.Forall (fun pt => pt.IsDownHill = false) (processLegs c legs).points) ∧
    (∀ (c : Collab) (legs : List Leg),
      List.Forall (fun pt => pt.Elevation = (c.elevation pt.Lat pt.Lng).getD 0)
        (processLegs c legs).points) := by
  have key : ∀ (c : Collab) (legs : List Leg),
      (processLegs c legs).points = specRoutePoints c legs := by
    intro c legs
    have h := foldl_processLeg_points c legs initState
    simpa [processLegs, initState] using h
  refine ⟨key, ?_, ?_⟩
  · intro c legs
    rw [List.forall_iff_forall_mem]
    intro pt hpt
    rw [key] at hpt
    exact (specRoutePoints_mem c legs pt hpt).1
  · intro c legs
    rw [List.forall_iff_forall_mem]
    intro pt hpt
    rw [key] at hpt
    exact (specRoutePoints_mem c legs pt hpt).2

/-! ## Claims about the LabelResolver -/

/-- C5 counterexample.  First pair: the reverse-geocode lookup yields
formatted address `"Road to Unnamed Peak"` — an external label that is
present, non-empty, has no plus sign and does not start with
`"Unnamed"`, so the claim's rule (1) returns it verbatim
(`claimResolve`); the handler instead rejects it because it contains
`"Unnamed"` anywhere and falls back to the tag-stripped markup `"Go"`.
Second pair: with no external label the claim's rule (2) extracts
`"Market St"` from the bold span after `" onto "`, but the handler's
waypoint-description path never applies rule (2) and strips all tags
instead. -/
theorem labelResolver_claim_counterexample :
    claimResolve "Go" (some "Road to Unnamed Peak") = "Road to Unnamed Peak" ∧
    resolveDesc (some ⟨[], "Road to Unnamed Peak"⟩) "Go" = "Go" ∧
    ("Go" : String) ≠ "Road to Unnamed Peak" ∧
    claimResolve "Turn <b>left</b> onto <b>Market St</b>" none = "Market St" ∧
    resolveDesc none "Turn <b>left</b> onto <b>Market St</b>" = "Turn left onto Market St" ∧
    ("Turn left onto Market St" : String) ≠ "Market St" := by
  refine ⟨by decide, by decide, by decide, by decide, by decide, by decide⟩

/-- C5 amended: the waypoint-description resolution equals the amended
precedence — the usable external label (rule 1, with the
formatted-address fallback additionally rejected when it contains
`Unnamed` anywhere) is returned verbatim, and otherwise the markup is
tag-stripped directly (rule 3; the keyword scan of rule 2 belongs only
to the instruction street-name path, whose two scenario behaviors are
also checked); resolution is total and never fails. -/
theorem labelResolver_amended :
    (∀ (resp : Option GeocodeResult) (markup : String),
      resolveDesc resp markup =
        (match specExternalLabel resp with
         | some l => l
         | none => stripHTML markup)) ∧
    resolveStreetName "Turn <b>left</b> onto <b>Market St</b>" = "Market St" ∧
    resolveStreetName "Continue straight" = "Continue straight" := by
  refine ⟨?_, by decide, by decide⟩
  intro resp markup
  match resp with
  | none => rfl
  | some r =>
      rcases hfind : r.AddressComponents.find? (fun comp => comp.Types.contains "route")
        with _ | comp
      · simp only [resolveDesc, extractStreetNameFromReverseGeocode, specExternalLabel, hfind]
        by_cases hL : r.FormattedAddress = ""
        · simp [hL]
        · cases h1 : containsStr "+" r.FormattedAddress <;>
            cases h2 : containsStr "Unnamed" r.FormattedAddress <;>
            simp [h1, h2, hL]
      · simp only [resolveDesc, extractStreetNameFromReverseGeocode, specExternalLabel, hfind]
        by_cases hL : comp.LongName = ""
        · simp [hL]
        · cases h1 : containsStr "+" comp.LongName <;>
            cases h2 : hasPrefixStr "Unnamed" comp.LongName <;>
            simp [h1, h2, hL]

/-! ## Claims about the ElevationAnnotator -/

/-- The annotation loop preserves the list length. -/
theorem setDownhill_length : ∀ W : List Point, (setDownhill W).length = W.length := by
  intro W
  induction W with
  | nil => rfl
  | cons p t ih =>
      cases t with
      | nil => rfl
      | cons q rest =>
          simp only [setDownhill, List.length_cons]
          simpa using ih

/-- Element-wise behavior of the annotation loop: an element with a
successor is returned with its flag forced to `true` when the successor
is strictly lower, and unchanged otherwise. -/
theorem setDownhill_get (W : List Point) :
    ∀ (i : ℕ) (p q : Point), W[i]? = some p → W[i + 1]? = some q →
      (setDownhill W)[i]? =
        some (if q.Elevation < p.Elevation then { p with IsDownHill := true } else p) := by
  induction W with
  | nil => intro i p q hp hq; simp at hp
  | cons x t ih =>
      cases t with
      | nil =>
          intro i p q hp hq
          rcases i with _ | j
          · simp at hq
          · simp at hp
      | cons y rest =>
          intro i p q hp hq
          rcases i with _ | j
          · simp only [List.getElem?_cons_zero, List.getElem?_cons_succ,
              Option.some_inj] at hp hq
            subst hp
            subst hq
            simp [setDownhill]
          · rw [List.getElem?_cons_succ] at hp hq
            simp only [setDownhill, List.getElem?_cons_succ]
            exact ih j p q hp hq

/-- The annotation loop never writes the last element. -/
theorem setDownhill_getLast : ∀ W : List Point, (setDownhill W).getLast? = W.getLast? := by
  intro W
  induction W with
  | nil => rfl
  | cons p t ih =>
      cases t with
      | nil => rfl
      | cons q rest =>
          show ((if q.Elevation < p.Elevation then { p with IsDownHill := true } else p)
            :: setDownhill (q :: rest)).getLast? = _
          cases hL : setDownhill (q :: rest) with
          | nil =>
              have := setDownhill_length (q :: rest)
              rw [hL] at this
              simp at this
          | cons y ys =>
              rw [List.getLast?_cons_cons, ← hL, ih, List.getLast?_cons_cons]

/-- C6 counterexample: a caller-supplied `isDownhill = true` flag on the
first of two waypoints survives annotation although the second waypoint
is strictly higher, so `isDownhill = true` does not hold iff the next
elevation is lower — the loop only ever sets the flag, never clears
it. -/
theorem downhill_iff_counterexample :
    (setDownhill [pT, qT])[0]?.map (fun r => r.IsDownHill) = some true ∧
    ¬ qT.Elevation < pT.Elevation := by
  have hc : ¬ qT.Elevation < pT.Elevation := by
    simp only [pT, qT]
    norm_num
  refine ⟨?_, hc⟩
  simp [setDownhill, if_neg hc, pT]

/-- C6 amended: the annotation loop preserves length; for indices with a
successor, the flag is forced to `true` when the successor is strictly
lower and the waypoint is returned otherwise unchanged (so all other
fields are preserved); the last element is never written; and when every
caller-supplied flag is `false` — as in the pipeline, which constructs
waypoints with a false flag — the claimed equivalence holds:
`isDownhill = true` iff the next elevation is strictly lower. -/
theorem downhill_annotation_amended :
    (∀ W : List Point, (setDownhill W).length = W.length) ∧
    (∀ (W : List Point) (i : ℕ) (p q : Point), W[i]? = some p → W[i + 1]? = some q →
      (setDownhill W)[i]? =
        some (if q.Elevation < p.Elevation then { p with IsDownHill := true } else p)) ∧
    (∀ W : List Point, (setDownhill W).getLast? = W.getLast?) ∧
    (∀ W : List Point, List.Forall (fun pt => pt.IsDownHill = false) W →
      ∀ (i : ℕ) (p q : Point), W[i]? = some p → W[i + 1]? = some q →
        ∀ r : Point, (setDownhill W)[i]? = some r →
          (r.IsDownHill = true ↔ q.Elevation < p.Elevation)) := by
  refine ⟨setDownhill_length, setDownhill_get, setDownhill_getLast, ?_⟩
  intro W hW i p q hp hq r hr
  rw [setDownhill_get W i p q hp hq, Option.some_inj] at hr
  have hpf : p.IsDownHill = false := by
    rw [List.forall_iff_forall_mem] at hW
    exact hW p (List.getElem?_mem hp)
  by_cases hc : q.Elevation < p.Elevation
  · rw [if_pos hc] at hr
    subst hr
    simp [hc]
  · rw [if_neg hc] at hr
    subst hr
    simp [hpf, hc]

/-- Witness for C6 at a concrete two-point input. -/
theorem downhill_annotation_amended_witness :
    (setDownhill [pA, pB])[0]? =
      some (if pB.Elevation < pA.Elevation then { pA with IsDownHill := true } else pA) :=
  downhill_annotation_amended.2.1 [pA, pB] 0 pA pB (by rfl) (by rfl)

end RouteApi
